import Mathlib

/-!
Shallow embedding of `src/main.py` (Figment Pixel Color Counter).

The embedded core is the pure classification pipeline of
`analyze_image_colors` (after the external image decode): the
unique-color histogram, the nearest-color scan `get_color_name`, the
count accumulation, and the percentage computation.  Python integers are
modelled by `ℤ`/`ℕ`; the NumPy uint8 scalar arithmetic of the distance
computation wraps mod 256 and is modelled with explicit `% 256` at every
operation; the `float('inf')` sentinel of `get_color_name` is modelled
by `WithTop ℤ`; a Python `dict` with string keys by an association list
in insertion order with unique keys (Python dicts preserve insertion
order); a raised exception by `Except`.
-/

namespace Figment

/-- A pixel or reference color: an RGB triplet.  The source obtains
pixel components as NumPy uint8 scalars (rows of `np.unique` over a
uint8 array, values 0..255) and palette components from
`webcolors.hex_to_rgb` (Python ints 0..255).  Components are carried as
`ℤ`; the uint8 wraparound of the distance arithmetic is modelled inside
`dist`. -/
abbrev RGB := ℤ × ℤ × ℤ

/-- Mirrors `dist = sum([(a - b) ** 2 for a, b in zip(rgb_triplet, target_rgb)])`
(src/main.py line 50).  `a` is a NumPy uint8 scalar and `b` a Python int
in `[0,255]`, so under NumPy's promotion rules (legacy value-based
casting and NEP 50 alike) the subtraction stays uint8 and wraps mod 256
— the "overflow encountered in ubyte_scalars" behavior — and the
squaring and the running sum of `sum` (whose start value 0 also promotes
to uint8) wrap likewise.  The code therefore compares squared Euclidean
distances reduced mod 256, not exact integers.  Every wrap is written as
an explicit `% 256`; Lean's `%` on `ℤ` is the Euclidean mod, which is
non-negative for the positive modulus and so coincides with uint8
wrapping for any operands. -/
def dist (c p : RGB) : ℤ :=
  ((((c.1 - p.1) % 256) ^ 2 % 256
      + ((c.2.1 - p.2.1) % 256) ^ 2 % 256) % 256
    + ((c.2.2 - p.2.2) % 256) ^ 2 % 256) % 256

/-- The distance the spec and claim C2 describe — the exact-integer
squared Euclidean distance, with no wraparound ("results must match
exact-integer comparisons without floating-point distance error").
Stated alongside the code's wrapped `dist` purely to compare the two:
the code does not compute this. -/
def exact_squared_dist (c p : RGB) : ℤ :=
  (c.1 - p.1) ^ 2 + (c.2.1 - p.2.1) ^ 2 + (c.2.2 - p.2.2) ^ 2

/-- One iteration of the loop in `get_color_name` (lines 48-53): replace
the current best `(min_distance, closest_color)` exactly when the new
distance is strictly smaller.  `min_distance` starts at `float('inf')`,
modelled as `⊤ : WithTop ℤ`. -/
def scanStep (rgb : RGB) (acc : WithTop ℤ × Option String) (entry : String × RGB) :
    WithTop ℤ × Option String :=
  if (dist rgb entry.2 : WithTop ℤ) < acc.1 then ((dist rgb entry.2 : WithTop ℤ), some entry.1)
  else acc

/-- Mirrors `get_color_name(rgb_triplet, target_colors)` (lines 35-54):
scan the palette entries in insertion order keeping the strictly closest
one; returns `None` (here `none`) only if the scan never replaces the
initialisation. -/
def get_color_name (rgb : RGB) (target_colors : List (String × RGB)) : Option String :=
  (target_colors.foldl (scanStep rgb) (⊤, none)).2

/-- Add one occurrence of color `c` to the histogram: increment its
count if present, else append it.  Together with `hist` this models
`np.unique(..., return_counts=True)` (line 75): the same multiset of
`(distinct color, count)` pairs.  `np.unique` lists the distinct colors
in sorted order while `hist` lists them in first-occurrence order — a
permutation, which is immaterial because the classification fold is
proved permutation-invariant below. -/
def histInsert (h : List (RGB × ℕ)) (c : RGB) : List (RGB × ℕ) :=
  match h with
  | [] => [(c, 1)]
  | (c0, k) :: t => if c0 = c then (c0, k + 1) :: t else (c0, k) :: histInsert t c

/-- The unique-color histogram of a flattened pixel list (line 75). -/
def hist (l : List RGB) : List (RGB × ℕ) := l.foldl histInsert []

/-- Mirrors `color_counts[color_name] += count` on a Python dict
modelled as an association list: add `k` to the value at the first
occurrence of `name` (keys are unique in a dict, so at most one
occurrence exists). -/
def bump (l : List (String × ℕ)) (name : String) (k : ℕ) : List (String × ℕ) :=
  match l with
  | [] => []
  | (n, v) :: t => if n = name then (n, v + k) :: t else (n, v) :: bump t name k

/-- The `color_counts` update of one iteration of the loop
`for color, count in zip(unique, counts)` (lines 83-86): classify the
distinct color with `get_color_name`, and — under the guard
`if color_name in target_colors` (a key-membership test, false for
`None`) — add the color's count to the chosen name's entry. -/
def tallyCounts (target_colors : List (String × RGB)) (cc : List (String × ℕ))
    (e : RGB × ℕ) : List (String × ℕ) :=
  match get_color_name e.1 target_colors with
  | some n => if n ∈ target_colors.map Prod.fst then bump cc n e.2 else cc
  | none => cc

/-- One full iteration of the loop on lines 83-87: update `color_counts`
and add the count to `total_pixels`. -/
def tally (target_colors : List (String × RGB)) (acc : List (String × ℕ) × ℕ)
    (e : RGB × ℕ) : List (String × ℕ) × ℕ :=
  (tallyCounts target_colors acc.1 e, acc.2 + e.2)

/-- Lines 79-87: initialise `color_counts = {color: 0 for color in target_colors}`
and `total_pixels = 0`, then run the accumulation loop over the
histogram. -/
def classify_loop (target_colors : List (String × RGB)) (u : List (RGB × ℕ)) :
    List (String × ℕ) × ℕ :=
  u.foldl (tally target_colors) (target_colors.map (fun p => (p.1, 0)), 0)

/-- Failure modes.  `zeroDivisionError` is the Python `ZeroDivisionError`
raised by `count / total_pixels` when `total_pixels == 0` (line 90); it
is the only exception the embedded core can raise.  `emptyImage` and
`emptyPalette` are modelled from the spec's words ("fails with
`EmptyImage` ... fails with `EmptyPalette`") purely for comparison: the
source never raises them. -/
inductive PyError
  | zeroDivisionError
  | emptyImage
  | emptyPalette
deriving DecidableEq, Repr

/-- Mirrors the dict comprehension on lines 90-91:
`{color + '_percent': "{:.6f}".format(count / total_pixels) for color, count in color_counts.items()}`.
Keys are `name ++ "_percent"`.  The value is modelled as the exact
rational `count / total_pixels` (the source stores this ratio formatted
to six decimal places as a string; the numeric ratio is what the claims
are about).  When `total_pixels = 0` the first division raises
`ZeroDivisionError` — which happens exactly when `color_counts` is
non-empty, since an empty comprehension performs no division. -/
def color_percentages (cc : List (String × ℕ)) (total : ℕ) :
    Except PyError (List (String × ℚ)) :=
  match cc with
  | [] => Except.ok []
  | p :: t =>
    if total = 0 then Except.error PyError.zeroDivisionError
    else
      match color_percentages t total with
      | Except.error e => Except.error e
      | Except.ok ps => Except.ok ((p.1 ++ "_percent", (p.2 : ℚ) / (total : ℚ)) :: ps)

/-- The pure core of `analyze_image_colors` (lines 72-92), taking the
already-decoded pixel grid in place of the file path: flatten the grid
(`data.reshape(-1, 3)`), build the unique-color histogram, run the
accumulation loop, and compute the percentages. -/
def analyze_image_colors (grid : List (List RGB)) (target_colors : List (String × RGB)) :
    Except PyError (List (String × ℕ) × List (String × ℚ)) :=
  let data := grid.flatten
  let u := hist data
  let r := classify_loop target_colors u
  match color_percentages r.1 r.2 with
  | Except.error e => Except.error e
  | Except.ok ps => Except.ok (r.1, ps)

/-- Python dict-display semantics used to build `target_colors`
(lines 132-138): inserting a key that is already present keeps its
position and replaces its value; a fresh key is appended.  No
validation of any kind is performed. -/
def dictInsert (d : List (String × RGB)) (key : String) (v : RGB) : List (String × RGB) :=
  match d with
  | [] => [(key, v)]
  | (k0, v0) :: t => if k0 = key then (k0, v) :: t else (k0, v0) :: dictInsert t key v

/-- Build a Python dict from an ordered list of `(name, rgb)` pairs, as
the dict literal on lines 132-138 does.  It cannot fail. -/
def dict_of_pairs (pairs : List (String × RGB)) : List (String × RGB) :=
  pairs.foldl (fun d p => dictInsert d p.1 p.2) []

/-- The concrete `target_colors` dict of lines 132-138, with
`webcolors.hex_to_rgb` evaluated: `#ff69b4` → (255,105,180),
`#008b8b` → (0,139,139), `#d3d3d3` → (211,211,211),
`#005DBA` → (0,93,186), `#ffffff` → (255,255,255). -/
def target_colors : List (String × RGB) :=
  dict_of_pairs
    [("hotpink", (255, 105, 180)),
     ("darkcyan", (0, 139, 139)),
     ("lightgray", (211, 211, 211)),
     ("blue", (0, 93, 186)),
     ("white", (255, 255, 255))]

/-- The inputs of the classification call, bundled so that the
state-passing rendering below can make explicit that neither is ever
assigned to. -/
structure Env where
  pixels : List (List RGB)
  target_colors : List (String × RGB)

/-- State-passing rendering of one iteration of the loop on lines
83-87: the environment holding the call's inputs is threaded through the
iteration; the body reads `target_colors` from it and returns it as it
was received — there is no assignment to either input anywhere in the
source loop. -/
def tally_st (st : (List (String × ℕ) × ℕ) × Env) (e : RGB × ℕ) :
    (List (String × ℕ) × ℕ) × Env :=
  (tally st.2.target_colors st.1 e, st.2)

/-- State-passing rendering of the core of `analyze_image_colors`
(lines 72-92): every step that touches the inputs does so through the
threaded environment, which is returned alongside the result so that
"the inputs after the call" is an explicit value. -/
def analyze_image_colors_st (env : Env) :
    (Except PyError (List (String × ℕ) × List (String × ℚ))) × Env :=
  let data := env.pixels.flatten
  let u := hist data
  let r := u.foldl tally_st ((env.target_colors.map (fun p => (p.1, 0)), 0), env)
  match color_percentages r.1.1 r.1.2 with
  | Except.error e => (Except.error e, r.2)
  | Except.ok ps => (Except.ok (r.1.1, ps), r.2)

lemma scanStep_pos (c : RGB) (acc : WithTop ℤ × Option String) (e : String × RGB)
    (h : (dist c e.2 : WithTop ℤ) < acc.1) :
    scanStep c acc e = ((dist c e.2 : WithTop ℤ), some e.1) := by
  simp [scanStep, h]

lemma scanStep_neg (c : RGB) (acc : WithTop ℤ × Option String) (e : String × RGB)
    (h : ¬ (dist c e.2 : WithTop ℤ) < acc.1) :
    scanStep c acc e = acc := by
  simp [scanStep, h]

/-- Characterisation of the scan loop of `get_color_name` from an
arbitrary intermediate state `(d0, n0)`: either no entry's distance is
strictly below `d0` and the state passes through unchanged, or the scan
returns the first entry attaining the minimum distance over the list,
which moreover strictly beats `d0` and every entry before it. -/
lemma scan_spec (c : RGB) (l : List (String × RGB)) :
    ∀ (d0 : WithTop ℤ) (n0 : Option String),
      ((∀ r ∈ l, ¬ ((dist c r.2 : WithTop ℤ) < d0)) ∧
        l.foldl (scanStep c) (d0, n0) = (d0, n0)) ∨
      (∃ pre q suf, l = pre ++ q :: suf ∧
        l.foldl (scanStep c) (d0, n0) = ((dist c q.2 : WithTop ℤ), some q.1) ∧
        (dist c q.2 : WithTop ℤ) < d0 ∧
        (∀ r ∈ l, dist c q.2 ≤ dist c r.2) ∧
        (∀ r ∈ pre, dist c q.2 < dist c r.2)) := by
  induction l with
  | nil =>
    intro d0 n0
    exact Or.inl ⟨by simp, rfl⟩
  | cons p t ih =>
    intro d0 n0
    rw [List.foldl_cons]
    by_cases hp : (dist c p.2 : WithTop ℤ) < d0
    · rw [scanStep_pos c _ p hp]
      rcases ih (dist c p.2 : WithTop ℤ) (some p.1) with
        ⟨hall, heq⟩ | ⟨pre, q, suf, hsplit, heq, hlt, hmin, hpre⟩
      · refine Or.inr ⟨[], p, t, rfl, heq, hp, ?_, by simp⟩
        intro r hr
        rcases List.mem_cons.mp hr with h | h
        · rw [h]
        · have h1 : (dist c p.2 : WithTop ℤ) ≤ (dist c r.2 : WithTop ℤ) := not_lt.mp (hall r h)
          exact_mod_cast h1
      · have hqp : dist c q.2 < dist c p.2 := by exact_mod_cast hlt
        refine Or.inr ⟨p :: pre, q, suf, by rw [hsplit, List.cons_append], heq, lt_trans hlt hp, ?_, ?_⟩
        · intro r hr
          rcases List.mem_cons.mp hr with h | h
          · rw [h]; exact le_of_lt hqp
          · exact hmin r h
        · intro r hr
          rcases List.mem_cons.mp hr with h | h
          · rw [h]; exact hqp
          · exact hpre r h
    · rw [scanStep_neg c _ p hp]
      rcases ih d0 n0 with ⟨hall, heq⟩ | ⟨pre, q, suf, hsplit, heq, hlt, hmin, hpre⟩
      · refine Or.inl ⟨?_, heq⟩
        intro r hr
        rcases List.mem_cons.mp hr with h | h
        · rw [h]; exact hp
        · exact hall r h
      · have hdp : d0 ≤ (dist c p.2 : WithTop ℤ) := not_lt.mp hp
        have hqp : dist c q.2 < dist c p.2 := by exact_mod_cast lt_of_lt_of_le hlt hdp
        refine Or.inr ⟨p :: pre, q, suf, by rw [hsplit, List.cons_append], heq, hlt, ?_, ?_⟩
        · intro r hr
          rcases List.mem_cons.mp hr with h | h
          · rw [h]; exact le_of_lt hqp
          · exact hmin r h
        · intro r hr
          rcases List.mem_cons.mp hr with h | h
          · rw [h]; exact hqp
          · exact hpre r h

/-- On a non-empty palette, `get_color_name` returns the name of the
first entry (in insertion order) minimizing the code's wrapped distance
`dist`. -/
lemma get_color_name_spec (c : RGB) (tc : List (String × RGB)) (h : tc ≠ []) :
    ∃ pre q suf, tc = pre ++ q :: suf ∧
      get_color_name c tc = some q.1 ∧
      (∀ r ∈ tc, dist c q.2 ≤ dist c r.2) ∧
      (∀ r ∈ pre, dist c q.2 < dist c r.2) := by
  rcases scan_spec c tc ⊤ none with ⟨hall, _⟩ | ⟨pre, q, suf, hsplit, heq, _, hmin, hpre⟩
  · rcases List.exists_mem_of_ne_nil tc h with ⟨r, hr⟩
    exact absurd (WithTop.coe_lt_top (dist c r.2)) (hall r hr)
  · exact ⟨pre, q, suf, hsplit, by rw [get_color_name, heq], hmin, hpre⟩

/-- On a non-empty palette, `get_color_name` returns the name of some
palette entry (never the `None` initialisation). -/
lemma get_color_name_mem (c : RGB) (tc : List (String × RGB)) (h : tc ≠ []) :
    ∃ q ∈ tc, get_color_name c tc = some q.1 := by
  rcases get_color_name_spec c tc h with ⟨pre, q, suf, hsplit, heq, _, _⟩
  exact ⟨q, by rw [hsplit]; simp, heq⟩

lemma bump_keys (l : List (String × ℕ)) (name : String) (k : ℕ) :
    (bump l name k).map Prod.fst = l.map Prod.fst := by
  induction l with
  | nil => rfl
  | cons p t ih =>
    rcases p with ⟨n, v⟩
    by_cases h : n = name
    · simp [bump, h]
    · simp [bump, h, ih]

lemma bump_sum (l : List (String × ℕ)) (name : String) (k : ℕ)
    (h : name ∈ l.map Prod.fst) :
    ((bump l name k).map Prod.snd).sum = (l.map Prod.snd).sum + k := by
  induction l with
  | nil => simp at h
  | cons p t ih =>
    rcases p with ⟨n, v⟩
    by_cases hn : n = name
    · simp [bump, hn]
      omega
    · have h' : name ∈ t.map Prod.fst := by
        simp only [List.map_cons, List.mem_cons] at h
        rcases h with h0 | h0
        · exact absurd h0.symm hn
        · exact h0
      simp [bump, hn, ih h']
      omega

lemma bump_comm (l : List (String × ℕ)) (n1 : String) (k1 : ℕ) (n2 : String) (k2 : ℕ) :
    bump (bump l n1 k1) n2 k2 = bump (bump l n2 k2) n1 k1 := by
  induction l with
  | nil => rfl
  | cons p t ih =>
    rcases p with ⟨n, v⟩
    by_cases h1 : n = n1 <;> by_cases h2 : n = n2
    · subst h1; subst h2
      simp [bump, Nat.add_right_comm]
    · subst h1
      simp [bump, h2]
    · subst h2
      simp [bump, h1]
    · simp [bump, h1, h2, ih]

lemma tallyCounts_keys (tc : List (String × RGB)) (cc : List (String × ℕ)) (e : RGB × ℕ) :
    (tallyCounts tc cc e).map Prod.fst = cc.map Prod.fst := by
  cases h : get_color_name e.1 tc with
  | none => simp [tallyCounts, h]
  | some n =>
    by_cases hm : n ∈ tc.map Prod.fst <;> simp [tallyCounts, h, hm, bump_keys]

lemma tallyCounts_sum (tc : List (String × RGB)) (cc : List (String × ℕ)) (e : RGB × ℕ)
    (htc : tc ≠ []) (hkeys : cc.map Prod.fst = tc.map Prod.fst) :
    ((tallyCounts tc cc e).map Prod.snd).sum = (cc.map Prod.snd).sum + e.2 := by
  rcases get_color_name_mem e.1 tc htc with ⟨q, hq, heq⟩
  have hm : q.1 ∈ tc.map Prod.fst := List.mem_map.mpr ⟨q, hq, rfl⟩
  have hm' : q.1 ∈ cc.map Prod.fst := by rw [hkeys]; exact hm
  simp [tallyCounts, heq, hm, bump_sum cc q.1 e.2 hm']

lemma tallyCounts_comm (tc : List (String × RGB)) (cc : List (String × ℕ)) (a b : RGB × ℕ) :
    tallyCounts tc (tallyCounts tc cc a) b = tallyCounts tc (tallyCounts tc cc b) a := by
  cases ha : get_color_name a.1 tc with
  | none => simp [tallyCounts, ha]
  | some na =>
    cases hb : get_color_name b.1 tc with
    | none => simp [tallyCounts, ha, hb]
    | some nb =>
      by_cases hma : na ∈ tc.map Prod.fst <;> by_cases hmb : nb ∈ tc.map Prod.fst <;>
        simp [tallyCounts, ha, hb, hma, hmb]
      exact bump_comm cc na a.2 nb b.2

lemma tally_comm (tc : List (String × RGB)) (acc : List (String × ℕ) × ℕ) (a b : RGB × ℕ) :
    tally tc (tally tc acc a) b = tally tc (tally tc acc b) a := by
  simp [tally, tallyCounts_comm, Nat.add_right_comm]

/-- Folding a right-commutative operation is invariant under
permutation of the list. -/
lemma foldl_perm {α β : Type} (f : β → α → β)
    (hf : ∀ acc a b, f (f acc a) b = f (f acc b) a)
    {l1 l2 : List α} (hp : l1.Perm l2) : ∀ acc, l1.foldl f acc = l2.foldl f acc := by
  induction hp with
  | nil => intro acc; rfl
  | cons x _ ih => intro acc; rw [List.foldl_cons, List.foldl_cons, ih]
  | swap x y l => intro acc; rw [List.foldl_cons, List.foldl_cons, List.foldl_cons,
      List.foldl_cons, hf]
  | trans _ _ ih1 ih2 => intro acc; rw [ih1, ih2]

/-- Invariant of the accumulation loop of lines 83-87, from any state
whose `color_counts` has exactly the palette's keys: the keys are
preserved, the counts gain the total multiplicity of the processed
histogram entries, and `total_pixels` gains the same amount. -/
lemma classify_fold_spec (tc : List (String × RGB)) (htc : tc ≠ []) :
    ∀ (u : List (RGB × ℕ)) (acc : List (String × ℕ) × ℕ),
      acc.1.map Prod.fst = tc.map Prod.fst →
      ((u.foldl (tally tc) acc).1.map Prod.fst = tc.map Prod.fst ∧
       ((u.foldl (tally tc) acc).1.map Prod.snd).sum
         = (acc.1.map Prod.snd).sum + (u.map Prod.snd).sum ∧
       (u.foldl (tally tc) acc).2 = acc.2 + (u.map Prod.snd).sum) := by
  intro u
  induction u with
  | nil =>
    intro acc hk
    exact ⟨hk, by simp, by simp⟩
  | cons e t ih =>
    intro acc hk
    rw [List.foldl_cons]
    have hk' : (tally tc acc e).1.map Prod.fst = tc.map Prod.fst := by
      rw [tally, tallyCounts_keys, hk]
    rcases ih (tally tc acc e) hk' with ⟨h1, h2, h3⟩
    refine ⟨h1, ?_, ?_⟩
    · rw [h2]
      have hs : ((tally tc acc e).1.map Prod.snd).sum = (acc.1.map Prod.snd).sum + e.2 :=
        tallyCounts_sum tc acc.1 e htc hk
      rw [hs]
      simp
      omega
    · rw [h3]
      simp [tally]
      omega

/-- The whole accumulation: keys are the palette's keys, and both the
counts total and `total_pixels` equal the histogram's total
multiplicity. -/
lemma classify_loop_spec (tc : List (String × RGB)) (htc : tc ≠ []) (u : List (RGB × ℕ)) :
    (classify_loop tc u).1.map Prod.fst = tc.map Prod.fst ∧
    ((classify_loop tc u).1.map Prod.snd).sum = (u.map Prod.snd).sum ∧
    (classify_loop tc u).2 = (u.map Prod.snd).sum := by
  have hinit : ((tc.map fun p => (p.1, (0 : ℕ))).map Prod.fst) = tc.map Prod.fst := by
    rw [List.map_map]
    rfl
  have hsum0 : (((tc.map fun p => (p.1, (0 : ℕ))).map Prod.snd)).sum = 0 := by
    apply List.sum_eq_zero
    intro x hx
    rw [List.map_map] at hx
    rcases List.mem_map.mp hx with ⟨a, _, ha⟩
    exact ha.symm
  rcases classify_fold_spec tc htc u (tc.map fun p => (p.1, (0 : ℕ)), 0) hinit with ⟨h1, h2, h3⟩
  refine ⟨h1, ?_, ?_⟩
  · rw [classify_loop, h2, hsum0, Nat.zero_add]
  · rw [classify_loop, h3, Nat.zero_add]

lemma histInsert_sum (h : List (RGB × ℕ)) (c : RGB) :
    ((histInsert h c).map Prod.snd).sum = (h.map Prod.snd).sum + 1 := by
  induction h with
  | nil => simp [histInsert]
  | cons p t ih =>
    rcases p with ⟨c0, k⟩
    by_cases hc : c0 = c
    · simp [histInsert, hc]
      omega
    · simp [histInsert, hc, ih]
      omega

lemma hist_fold_sum (l : List RGB) :
    ∀ h0 : List (RGB × ℕ),
      ((l.foldl histInsert h0).map Prod.snd).sum = (h0.map Prod.snd).sum + l.length := by
  induction l with
  | nil => intro h0; simp
  | cons c t ih =>
    intro h0
    rw [List.foldl_cons, ih, histInsert_sum]
    simp
    omega

/-- The histogram's multiplicities add up to the number of pixels. -/
lemma hist_sum (l : List RGB) : ((hist l).map Prod.snd).sum = l.length := by
  have h := hist_fold_sum l []
  simpa [hist] using h

/-- A rectangular grid flattens to `rows × width` pixels. -/
lemma flatten_length_rect (grid : List (List RGB)) (w : ℕ)
    (hr : ∀ row ∈ grid, row.length = w) : grid.flatten.length = grid.length * w := by
  induction grid with
  | nil => simp
  | cons row t ih =>
    have hrow : row.length = w := hr row (by simp)
    have ht : ∀ r ∈ t, r.length = w := fun r hrm => hr r (by simp [hrm])
    simp [hrow, ih ht, Nat.succ_mul, Nat.add_comm]

lemma color_percentages_ok (cc : List (String × ℕ)) (total : ℕ) (h : total ≠ 0) :
    color_percentages cc total
      = Except.ok (cc.map fun p => (p.1 ++ "_percent", (p.2 : ℚ) / (total : ℚ))) := by
  induction cc with
  | nil => simp [color_percentages]
  | cons p t ih => simp [color_percentages, h, ih]

lemma color_percentages_zero (cc : List (String × ℕ)) (hne : cc ≠ []) :
    color_percentages cc 0 = Except.error PyError.zeroDivisionError := by
  cases cc with
  | nil => exact absurd rfl hne
  | cons p t => simp [color_percentages]

/-- On a non-empty palette and a grid with at least one pixel, the
classification returns the accumulated counts together with the
percentages `count / total_pixels` keyed by `name ++ "_percent"`. -/
lemma analyze_ok (grid : List (List RGB)) (tc : List (String × RGB))
    (htc : tc ≠ []) (hne : grid.flatten ≠ []) :
    analyze_image_colors grid tc = Except.ok
      ((classify_loop tc (hist grid.flatten)).1,
       (classify_loop tc (hist grid.flatten)).1.map fun p =>
         (p.1 ++ "_percent", (p.2 : ℚ) / (grid.flatten.length : ℚ))) := by
  have htot : (classify_loop tc (hist grid.flatten)).2 = grid.flatten.length := by
    rcases classify_loop_spec tc htc (hist grid.flatten) with ⟨_, _, h3⟩
    rw [h3, hist_sum]
  have hlen : grid.flatten.length ≠ 0 := by
    intro h0
    exact hne (List.length_eq_zero.mp h0)
  rw [analyze_image_colors]
  rw [htot, color_percentages_ok _ _ hlen]

/-- With an empty palette the counts dict is initialised empty and no
histogram entry passes the membership guard, so it stays empty. -/
lemma classify_loop_nil_palette (u : List (RGB × ℕ)) : (classify_loop [] u).1 = [] := by
  have h : ∀ acc : List (String × ℕ) × ℕ, acc.1 = [] → (u.foldl (tally []) acc).1 = [] := by
    induction u with
    | nil => intro acc hacc; exact hacc
    | cons e t ih =>
      intro acc hacc
      rw [List.foldl_cons]
      apply ih
      simp [tally, tallyCounts, get_color_name, hacc]
  exact h _ rfl

/-- The state-passing fold returns the threaded environment unchanged
and computes the same accumulator as the plain fold. -/
lemma tally_st_fold (u : List (RGB × ℕ)) :
    ∀ (acc : List (String × ℕ) × ℕ) (env : Env),
      u.foldl tally_st (acc, env) = (u.foldl (tally env.target_colors) acc, env) := by
  induction u with
  | nil => intro acc env; rfl
  | cons e t ih =>
    intro acc env
    rw [List.foldl_cons, List.foldl_cons]
    exact ih _ _

lemma le_sum_of_mem_nat {l : List ℕ} {a : ℕ} (h : a ∈ l) : a ≤ l.sum := by
  induction l with
  | nil => simp at h
  | cons x t ih =>
    rcases List.mem_cons.mp h with h0 | h0
    · rw [h0, List.sum_cons]
      exact Nat.le_add_right x t.sum
    · exact le_trans (ih h0) (by rw [List.sum_cons]; exact Nat.le_add_left t.sum x)

lemma dictInsert_keys (d : List (String × RGB)) (key : String) (v : RGB) :
    (dictInsert d key v).map Prod.fst
      = if key ∈ d.map Prod.fst then d.map Prod.fst else d.map Prod.fst ++ [key] := by
  induction d with
  | nil => simp [dictInsert]
  | cons p t ih =>
    rcases p with ⟨k0, v0⟩
    by_cases hk : k0 = key
    · simp [dictInsert, hk]
    · have hk' : ¬ key = k0 := fun h0 => hk h0.symm
      by_cases hm : key ∈ t.map Prod.fst <;>
        simp [dictInsert, hk, hk', hm, ih]

lemma dictInsert_nodup (d : List (String × RGB)) (key : String) (v : RGB)
    (h : (d.map Prod.fst).Nodup) : ((dictInsert d key v).map Prod.fst).Nodup := by
  rw [dictInsert_keys]
  by_cases hm : key ∈ d.map Prod.fst
  · simpa [hm] using h
  · rw [if_neg hm]
    rw [List.nodup_append]
    refine ⟨h, List.nodup_singleton key, ?_⟩
    intro a ha hb
    rcases List.mem_singleton.mp hb with rfl
    exact hm ha

lemma dictInsert_mem (d : List (String × RGB)) (key : String) (v : RGB)
    (p : String × RGB) (hp : p ∈ dictInsert d key v) :
    p.1 ∈ d.map Prod.fst ∨ p.1 = key := by
  induction d with
  | nil =>
    rcases List.mem_singleton.mp hp with rfl
    exact Or.inr rfl
  | cons q t ih =>
    rcases q with ⟨k0, v0⟩
    by_cases hk : k0 = key
    · rw [dictInsert, if_pos hk] at hp
      rcases List.mem_cons.mp hp with h0 | h0
      · rw [h0]
        exact Or.inr hk
      · have hm : p.1 ∈ t.map Prod.fst := List.mem_map.mpr ⟨p, h0, rfl⟩
        exact Or.inl (by simp [hm])
    · rw [dictInsert, if_neg hk] at hp
      rcases List.mem_cons.mp hp with h0 | h0
      · rw [h0]
        exact Or.inl (by simp)
      · rcases ih h0 with h1 | h1
        · exact Or.inl (by simp [h1])
        · exact Or.inr h1

/-- Claim C1: for every non-empty palette and every non-empty rectangular
pixel grid, the counts returned by the classification sum to
`width * height`: every pixel is attributed to exactly one palette name,
with no unmatched bucket. -/
theorem C1_counts_sum_is_pixel_count (grid : List (List RGB)) (tc : List (String × RGB))
    (w h : ℕ) (htc : tc ≠ []) (hrect : ∀ row ∈ grid, row.length = w)
    (hrows : grid.length = h) (hw : 0 < w) (hh : 0 < h) :
    ∃ cc ps, analyze_image_colors grid tc = Except.ok (cc, ps) ∧
      (cc.map Prod.snd).sum = w * h := by
  have hlen : grid.flatten.length = h * w := by
    rw [flatten_length_rect grid w hrect, hrows]
  have hne : grid.flatten ≠ [] := by
    intro h0
    have hz : grid.flatten.length = 0 := by rw [h0]; rfl
    rw [hlen] at hz
    have := Nat.mul_pos hh hw
    omega
  refine ⟨_, _, analyze_ok grid tc htc hne, ?_⟩
  rcases classify_loop_spec tc htc (hist grid.flatten) with ⟨_, h2, _⟩
  rw [h2, hist_sum, hlen, Nat.mul_comm]

/-- Witness for C1 at a concrete 1×1 all-white grid against the
reference palette: the single pixel is counted once. -/
theorem C1_counts_sum_is_pixel_count_witness :
    target_colors ≠ [] ∧
    (∃ cc ps, analyze_image_colors [[((255, 255, 255) : RGB)]] target_colors
        = Except.ok (cc, ps) ∧ (cc.map Prod.snd).sum = 1 * 1) :=
  ⟨by decide,
    C1_counts_sum_is_pixel_count [[((255, 255, 255) : RGB)]] target_colors 1 1
      (by decide) (by decide) (by decide) (by decide) (by decide)⟩

/-- Claim C2, settled as a code bug at the failing input `(0,0,0)`
against the reference palette: the claim (and the spec, "exact-integer
comparisons") requires selection by exact-integer squared Euclidean
distance, under which `darkcyan` is the unique nearest entry
(38642 < 195075); but line 50's NumPy uint8 scalar arithmetic wraps mod
256, so the code's comparisons use wrapped distances and the scan picks
`white` (wrapped distance 3) instead. -/
theorem C2_exact_distance_selection_code_bug :
    get_color_name ((0, 0, 0) : RGB) target_colors = some "white" ∧
    dist ((0, 0, 0) : RGB) ((255, 255, 255) : RGB) = 3 ∧
    exact_squared_dist ((0, 0, 0) : RGB) ((0, 139, 139) : RGB) = 38642 ∧
    exact_squared_dist ((0, 0, 0) : RGB) ((255, 255, 255) : RGB) = 195075 ∧
    exact_squared_dist ((0, 0, 0) : RGB) ((0, 139, 139) : RGB)
      < exact_squared_dist ((0, 0, 0) : RGB) ((255, 255, 255) : RGB) := by
  decide

/-- Counterexample to claim C3 as stated: the percentages mapping the
code returns is keyed by `name ++ "_percent"`, not by the palette name
itself (and the six-decimal formatting also happens inside
`analyze_image_colors`, not in an output layer). -/
theorem C3_counterexample :
    (match analyze_image_colors [[((0, 0, 0) : RGB)]] [("white", ((255, 255, 255) : RGB))] with
      | Except.ok r => r.2.map Prod.fst
      | Except.error _ => []) = ["white_percent"] ∧
    ["white_percent"] ≠ ["white"] := by
  decide

/-- Claim C3 (amended): for every non-empty palette and non-empty grid,
the returned percentages are keyed by `name ++ "_percent"` and hold, as
a numeric ratio in `[0,1]`, exactly `counts[name] / total_pixels`
(the source stores this very ratio, formatted inside
`analyze_image_colors` to a six-decimal string). -/
theorem C3_percentages_are_suffixed_ratios (grid : List (List RGB))
    (tc : List (String × RGB)) (htc : tc ≠ []) (hne : grid.flatten ≠ []) :
    ∃ cc ps, analyze_image_colors grid tc = Except.ok (cc, ps) ∧
      ps = cc.map (fun p => (p.1 ++ "_percent", (p.2 : ℚ) / (grid.flatten.length : ℚ))) ∧
      ∀ v ∈ ps.map Prod.snd, 0 ≤ v ∧ v ≤ 1 := by
  refine ⟨_, _, analyze_ok grid tc htc hne, rfl, ?_⟩
  intro v hv
  rcases List.mem_map.mp hv with ⟨p, hp, hpv⟩
  rcases List.mem_map.mp hp with ⟨q, hq, hqp⟩
  have hlen0 : grid.flatten.length ≠ 0 := fun h0 => hne (List.length_eq_zero.mp h0)
  have hlenQ : (0 : ℚ) < (grid.flatten.length : ℚ) := by
    exact_mod_cast Nat.pos_of_ne_zero hlen0
  have hsum : ((classify_loop tc (hist grid.flatten)).1.map Prod.snd).sum
      = grid.flatten.length := by
    rcases classify_loop_spec tc htc (hist grid.flatten) with ⟨_, h2, _⟩
    rw [h2, hist_sum]
  have hqmem : q.2 ∈ (classify_loop tc (hist grid.flatten)).1.map Prod.snd :=
    List.mem_map.mpr ⟨q, hq, rfl⟩
  have hle : q.2 ≤ grid.flatten.length := by
    rw [← hsum]
    exact le_sum_of_mem_nat hqmem
  have hv2 : v = (q.2 : ℚ) / (grid.flatten.length : ℚ) := by
    rw [← hpv, ← hqp]
  rw [hv2]
  constructor
  · positivity
  · rw [div_le_one hlenQ]
    exact_mod_cast hle

/-- Witness for the amended C3 at the concrete 1×1 all-white grid. -/
theorem C3_percentages_are_suffixed_ratios_witness :
    target_colors ≠ [] ∧ ([[((255, 255, 255) : RGB)]].flatten ≠ []) ∧
    (∃ cc ps, analyze_image_colors [[((255, 255, 255) : RGB)]] target_colors
        = Except.ok (cc, ps) ∧
      ps = cc.map (fun p => (p.1 ++ "_percent",
        (p.2 : ℚ) / (([[((255, 255, 255) : RGB)]].flatten).length : ℚ))) ∧
      ∀ v ∈ ps.map Prod.snd, 0 ≤ v ∧ v ≤ 1) :=
  ⟨by decide, by decide,
    C3_percentages_are_suffixed_ratios [[((255, 255, 255) : RGB)]] target_colors
      (by decide) (by decide)⟩

/-- Counterexample to claim C4 as stated: with an empty palette and a
non-empty grid the code does not fail at all — it returns empty counts
and empty percentages. -/
theorem C4_counterexample :
    analyze_image_colors [[((0, 0, 0) : RGB)]] ([] : List (String × RGB))
      = Except.ok ([], []) := by
  rfl

/-- Claim C4 (amended): with an empty palette, `analyze_image_colors`
never raises an `EmptyPalette` error; it silently succeeds with an empty
counts dict and an empty percentages dict, for every grid. -/
theorem C4_empty_palette_silent_success (grid : List (List RGB)) :
    analyze_image_colors grid [] = Except.ok ([], []) := by
  have h1 : (classify_loop [] (hist grid.flatten)).1 = [] := classify_loop_nil_palette _
  simp only [analyze_image_colors]
  rw [h1]
  rfl

/-- Counterexample to claim C5 as stated: on a zero-pixel grid the code
fails with Python's `ZeroDivisionError` from `count / total_pixels`,
which is not an `EmptyImage` error (no such check exists in the code). -/
theorem C5_counterexample :
    analyze_image_colors ([] : List (List RGB)) target_colors
      = Except.error PyError.zeroDivisionError ∧
    (Except.error PyError.zeroDivisionError
        : Except PyError (List (String × ℕ) × List (String × ℚ)))
      ≠ Except.error PyError.emptyImage := by
  refine ⟨by rfl, ?_⟩
  intro h
  exact PyError.noConfusion (Except.error.inj h)

/-- Claim C5 (amended): for every non-empty palette and every grid with
zero pixels, `analyze_image_colors` fails — with an uncaught
`ZeroDivisionError` at the percentage computation, not with a dedicated
`EmptyImage` error — and produces no result. -/
theorem C5_empty_grid_zero_division (grid : List (List RGB)) (tc : List (String × RGB))
    (htc : tc ≠ []) (hempty : grid.flatten = []) :
    analyze_image_colors grid tc = Except.error PyError.zeroDivisionError := by
  rcases classify_loop_spec tc htc (hist grid.flatten) with ⟨h1, _, h3⟩
  have htot : (classify_loop tc (hist grid.flatten)).2 = 0 := by
    rw [h3, hist_sum, hempty]
    rfl
  have hcc : (classify_loop tc (hist grid.flatten)).1 ≠ [] := by
    intro h0
    rw [h0] at h1
    exact htc (List.map_eq_nil_iff.mp h1.symm)
  simp only [analyze_image_colors]
  rw [htot, color_percentages_zero _ hcc]

/-- Witness for the amended C5 at a concrete grid of one empty row. -/
theorem C5_empty_grid_zero_division_witness :
    target_colors ≠ [] ∧ ([([] : List RGB)].flatten = []) ∧
    analyze_image_colors [([] : List RGB)] target_colors
      = Except.error PyError.zeroDivisionError :=
  ⟨by decide, rfl, C5_empty_grid_zero_division [([] : List RGB)] target_colors (by decide) rfl⟩

/-- Counterexample to claim C6 as stated: the percentages mapping's key
set is not the palette's names — its keys carry the `_percent` suffix. -/
theorem C6_counterexample :
    (match analyze_image_colors [[((1, 2, 3) : RGB)]] target_colors with
      | Except.ok r => r.2.map Prod.fst
      | Except.error _ => []) =
      ["hotpink_percent", "darkcyan_percent", "lightgray_percent", "blue_percent",
        "white_percent"] ∧
    ["hotpink_percent", "darkcyan_percent", "lightgray_percent", "blue_percent",
        "white_percent"] ≠ target_colors.map Prod.fst := by
  decide

/-- Claim C6 (amended): for every non-empty palette and non-empty grid,
the counts mapping has exactly the palette's names as keys in insertion
order, the percentages mapping has exactly `name ++ "_percent"` for
those names in the same order, and all counts and percentage values are
non-negative. -/
theorem C6_key_sets_and_nonnegativity (grid : List (List RGB)) (tc : List (String × RGB))
    (htc : tc ≠ []) (hne : grid.flatten ≠ []) :
    ∃ cc ps, analyze_image_colors grid tc = Except.ok (cc, ps) ∧
      cc.map Prod.fst = tc.map Prod.fst ∧
      ps.map Prod.fst = tc.map (fun p => p.1 ++ "_percent") ∧
      (∀ k ∈ cc.map Prod.snd, 0 ≤ k) ∧
      (∀ v ∈ ps.map Prod.snd, (0 : ℚ) ≤ v) := by
  refine ⟨_, _, analyze_ok grid tc htc hne,
    (classify_loop_spec tc htc (hist grid.flatten)).1, ?_, ?_, ?_⟩
  · have hk := (classify_loop_spec tc htc (hist grid.flatten)).1
    have h := congrArg (List.map (fun s => s ++ "_percent")) hk
    rw [List.map_map, List.map_map] at h
    rw [List.map_map]
    exact h
  · intro k _
    exact Nat.zero_le k
  · intro v hv
    rcases List.mem_map.mp hv with ⟨p, hp, hpv⟩
    rcases List.mem_map.mp hp with ⟨q, _, hqp⟩
    have hv2 : v = (q.2 : ℚ) / (grid.flatten.length : ℚ) := by
      rw [← hpv, ← hqp]
    rw [hv2]
    positivity

/-- Witness for the amended C6 at a concrete 1×1 grid. -/
theorem C6_key_sets_and_nonnegativity_witness :
    target_colors ≠ [] ∧ ([[((9, 9, 9) : RGB)]].flatten ≠ []) ∧
    (∃ cc ps, analyze_image_colors [[((9, 9, 9) : RGB)]] target_colors
        = Except.ok (cc, ps) ∧
      cc.map Prod.fst = target_colors.map Prod.fst ∧
      ps.map Prod.fst = target_colors.map (fun p => p.1 ++ "_percent") ∧
      (∀ k ∈ cc.map Prod.snd, 0 ≤ k) ∧
      (∀ v ∈ ps.map Prod.snd, (0 : ℚ) ≤ v)) :=
  ⟨by decide, by decide,
    C6_key_sets_and_nonnegativity [[((9, 9, 9) : RGB)]] target_colors (by decide) (by decide)⟩

/-- Counterexample to claim C7's tie clause as stated: `(0,0,0)` is
exactly equidistant (exact squared distance 100) from the first two
palette entries, yet the code assigns it to the third entry, whose
mod-256 wrapped distance (65025 % 256 = 1) undercuts the tied pair's
(100) — so a color exactly equidistant from two entries is not always
assigned to the first-declared of them. -/
theorem C7_counterexample :
    exact_squared_dist ((0, 0, 0) : RGB) ((10, 0, 0) : RGB)
      = exact_squared_dist ((0, 0, 0) : RGB) ((0, 10, 0) : RGB) ∧
    get_color_name ((0, 0, 0) : RGB)
      [("a", ((10, 0, 0) : RGB)), ("b", ((0, 10, 0) : RGB)), ("c", ((0, 0, 255) : RGB))]
      = some "c" ∧
    (some "c" : Option String) ≠ some "a" := by
  decide

/-- Claim C7 (amended): the classification is deterministic and
order-insensitive — any permutation of the unique-color histogram yields
identical counts and total — and on a non-empty palette every color,
tied ones included, is assigned to the first entry minimizing the code's
wrapped (mod-256) distance; exact equidistance from two entries does not
by itself pin the assignment to either of them. -/
theorem C7_deterministic_order_insensitive (tc : List (String × RGB))
    (u v : List (RGB × ℕ)) (hp : u.Perm v) (c : RGB) (htc : tc ≠ []) :
    classify_loop tc u = classify_loop tc v ∧
    (∃ pre q suf, tc = pre ++ q :: suf ∧
      get_color_name c tc = some q.1 ∧
      (∀ r ∈ tc, dist c q.2 ≤ dist c r.2) ∧
      (∀ r ∈ pre, dist c q.2 < dist c r.2)) := by
  refine ⟨?_, get_color_name_spec c tc htc⟩
  rw [classify_loop, classify_loop]
  exact foldl_perm (tally tc) (tally_comm tc) hp _

/-- Witness for the amended C7: swapping two histogram entries leaves
the counts unchanged, and a concrete color's assignment is the first
wrapped-distance minimizer of the reference palette. -/
theorem C7_deterministic_order_insensitive_witness :
    (([(((0, 0, 0) : RGB), 1), (((1, 1, 1) : RGB), 2)] : List (RGB × ℕ)).Perm
        [(((1, 1, 1) : RGB), 2), (((0, 0, 0) : RGB), 1)]) ∧
    target_colors ≠ [] ∧
    (classify_loop target_colors [(((0, 0, 0) : RGB), 1), (((1, 1, 1) : RGB), 2)]
        = classify_loop target_colors [(((1, 1, 1) : RGB), 2), (((0, 0, 0) : RGB), 1)] ∧
      (∃ pre q suf, target_colors = pre ++ q :: suf ∧
        get_color_name ((0, 0, 0) : RGB) target_colors = some q.1 ∧
        (∀ r ∈ target_colors,
          dist ((0, 0, 0) : RGB) q.2 ≤ dist ((0, 0, 0) : RGB) r.2) ∧
        (∀ r ∈ pre, dist ((0, 0, 0) : RGB) q.2 < dist ((0, 0, 0) : RGB) r.2))) :=
  ⟨List.Perm.swap _ _ _, by decide,
    C7_deterministic_order_insensitive target_colors _ _ (List.Perm.swap _ _ _)
      ((0, 0, 0) : RGB) (by decide)⟩

/-- Counterexample to claim C8 as stated: building the palette dict from
pairs with a duplicated name and an out-of-range component (300) does
not fail with any `InvalidPalette` error — the dict literal silently
keeps the last value for the duplicated name. -/
theorem C8_counterexample :
    dict_of_pairs [("a", ((0, 0, 0) : RGB)), ("a", ((300, 1, 1) : RGB))]
      = [("a", ((300, 1, 1) : RGB))] := by
  decide

/-- Claim C8 (amended): palette construction is the Python dict display
of lines 132-138: it never fails and performs no validation — duplicate
names silently collapse (keeping the last value) and out-of-range
components are accepted; the resulting dict does have unique names, and
each of its names comes from the supplied pairs. -/
theorem C8_dict_construction_never_fails (pairs : List (String × RGB)) :
    ((dict_of_pairs pairs).map Prod.fst).Nodup ∧
    ∀ p ∈ dict_of_pairs pairs, p.1 ∈ pairs.map Prod.fst := by
  have main : ∀ (ps : List (String × RGB)) (d : List (String × RGB)),
      (d.map Prod.fst).Nodup →
      (((ps.foldl (fun d q => dictInsert d q.1 q.2) d).map Prod.fst).Nodup ∧
       ∀ p ∈ ps.foldl (fun d q => dictInsert d q.1 q.2) d,
         p.1 ∈ d.map Prod.fst ∨ p.1 ∈ ps.map Prod.fst) := by
    intro ps
    induction ps with
    | nil =>
      intro d hd
      exact ⟨hd, fun p hp => Or.inl (List.mem_map.mpr ⟨p, hp, rfl⟩)⟩
    | cons q qs ih =>
      intro d hd
      rw [List.foldl_cons]
      rcases ih (dictInsert d q.1 q.2) (dictInsert_nodup d q.1 q.2 hd) with ⟨h1, h2⟩
      refine ⟨h1, ?_⟩
      intro p hp
      rcases h2 p hp with h3 | h3
      · rw [dictInsert_keys] at h3
        by_cases hm : q.1 ∈ d.map Prod.fst
        · rw [if_pos hm] at h3
          exact Or.inl h3
        · rw [if_neg hm] at h3
          rcases List.mem_append.mp h3 with h4 | h4
          · exact Or.inl h4
          · have h5 : p.1 = q.1 := List.mem_singleton.mp h4
            exact Or.inr (by rw [h5]; simp)
      · exact Or.inr (by simp [h3])
  rw [dict_of_pairs]
  rcases main pairs [] (by simp) with ⟨h1, h2⟩
  refine ⟨h1, ?_⟩
  intro p hp
  rcases h2 p hp with h3 | h3
  · simp at h3
  · exact h3

/-- Claim C9: the classification call mutates neither input — rendered
in state-passing style, the threaded environment holding `(pixels,
palette)` comes back exactly as it went in, and the returned result is
the pure function `analyze_image_colors` of those same inputs. -/
theorem C9_inputs_unchanged_pure (env : Env) :
    (analyze_image_colors_st env).2 = env ∧
    (analyze_image_colors_st env).1 = analyze_image_colors env.pixels env.target_colors := by
  have hfold := tally_st_fold (hist env.pixels.flatten)
    (env.target_colors.map fun p => (p.1, 0), 0) env
  simp only [analyze_image_colors_st, analyze_image_colors, classify_loop, hfold]
  cases color_percentages
      ((hist env.pixels.flatten).foldl (tally env.target_colors)
        (env.target_colors.map fun p => (p.1, 0), 0)).1
      ((hist env.pixels.flatten).foldl (tally env.target_colors)
        (env.target_colors.map fun p => (p.1, 0), 0)).2 with
  | error e => exact ⟨rfl, rfl⟩
  | ok ps => exact ⟨rfl, rfl⟩

/-- Claim C10: on every non-empty palette, `get_color_name` returns the
name of some palette entry — never its `None` initialisation — and that
name passes the key-membership guard of the accumulation loop, so no
histogram count is silently dropped. -/
theorem C10_classifier_name_always_in_palette (c : RGB) (tc : List (String × RGB))
    (h : tc ≠ []) :
    ∃ q ∈ tc, get_color_name c tc = some q.1 ∧ q.1 ∈ tc.map Prod.fst := by
  rcases get_color_name_mem c tc h with ⟨q, hq, heq⟩
  exact ⟨q, hq, heq, List.mem_map.mpr ⟨q, hq, rfl⟩⟩

/-- Witness for C10 at a concrete off-palette color. -/
theorem C10_classifier_name_always_in_palette_witness :
    target_colors ≠ [] ∧
    (∃ q ∈ target_colors, get_color_name ((12, 34, 56) : RGB) target_colors = some q.1 ∧
      q.1 ∈ target_colors.map Prod.fst) :=
  ⟨by decide,
    C10_classifier_name_always_in_palette ((12, 34, 56) : RGB) target_colors (by decide)⟩

end Figment
